import Mathlib

/-!
Verification of the sales-dashboard data pipeline (src/app.py).

The program is a linear pandas pipeline: load a CSV of sale records,
derive YEAR_MONTH / PROFIT / PROFIT_MARGIN columns, filter the frame by
four multiselect dimensions (YEAR, STATUS, PRODUCTLINE, DEALSIZE), and
compute grouped aggregates for each chart.  We embed the pipeline
shallowly: a data frame is a list of rows, a column a projection,
pandas filtering is List.filter, groupby-sum is a map over the sorted
deduplicated keys, and the IEEE special values that arise from division
by zero in the PROFIT_MARGIN column are modelled by an extended-rational
type with explicit positive/negative infinity and NaN.
-/

/-- Calendar date (order dates in the data are day-resolution). -/
structure DateYMD where
  y : Nat
  m : Nat
  d : Nat
deriving DecidableEq, Repr

/-- Extended rational: the value space of the PROFIT_MARGIN column.
Pandas stores the column as float64; dividing a nonzero float by zero
yields a signed infinity and dividing zero by zero yields NaN, neither
of which raises.  Finite values are exact rationals in the model. -/
inductive ExtQ where
  | fin (q : ℚ)
  | posInf
  | negInf
  | nan
deriving DecidableEq, Repr

namespace ExtQ

/-- Addition on extended rationals, following IEEE-754 semantics as
implemented by pandas sums: NaN is absorbing, infinities of the same
sign are absorbing, and opposite infinities give NaN. -/
def add : ExtQ → ExtQ → ExtQ
  | nan, _ => nan
  | _, nan => nan
  | posInf, negInf => nan
  | negInf, posInf => nan
  | posInf, _ => posInf
  | _, posInf => posInf
  | negInf, _ => negInf
  | _, negInf => negInf
  | fin a, fin b => fin (a + b)

/-- Division of an extended rational by a positive natural count, as used
by the mean. -/
def divNat : ExtQ → Nat → ExtQ
  | fin q, n => fin (q / (n : ℚ))
  | posInf, _ => posInf
  | negInf, _ => negInf
  | nan, _ => nan

/-- Sum of a list of extended rationals (pandas sum over a float column). -/
def sumL (l : List ExtQ) : ExtQ := l.foldr add (fin 0)

/-- Test for NaN. -/
def isNan : ExtQ → Bool
  | nan => true
  | _ => false

/-- Mean with pandas default skipna=True: NaN entries are dropped, the
remaining entries (including infinities) are summed and divided by their
count; the mean of an empty or all-NaN column is NaN. -/
def meanSkipNan (l : List ExtQ) : ExtQ :=
  let vs := l.filter (fun v => !v.isNan)
  if vs.length = 0 then nan else divNat (sumL vs) vs.length

end ExtQ

/-- Digits of a natural number, least significant first, with explicit
fuel so that the definition is structurally recursive (fuel n suffices). -/
def natDigitsRevFuel : Nat → Nat → List Nat
  | 0, _ => []
  | _ + 1, 0 => []
  | fuel + 1, n + 1 => ((n + 1) % 10) :: natDigitsRevFuel fuel ((n + 1) / 10)

/-- Digits of a natural number, least significant first; empty for 0. -/
def natDigitsRev (n : Nat) : List Nat := natDigitsRevFuel n n

/-- Character for a decimal digit. -/
def digitChar (d : Nat) : Char := Char.ofNat (d + 48)

/-- Decimal rendering of a natural number as a character list. -/
def natRender (n : Nat) : List Char :=
  if n = 0 then ['0'] else ((natDigitsRev n).map digitChar).reverse

/-- Zero-padded decimal rendering to at least the given width. -/
def natPad (w n : Nat) : List Char :=
  List.replicate (w - (natRender n).length) '0' ++ natRender n

/-- YEAR_MONTH key of a date: the string produced by
pandas to_period M followed by astype str, i.e. a zero-padded
YYYY-MM string. -/
def ymStr (dt : DateYMD) : String :=
  String.mk (natPad 4 dt.y ++ '-' :: natPad 2 dt.m)

/-- Sale record as read from the source CSV: the columns the program
references, before the derived columns are added.  Numeric columns that
may carry thousands separators (ORDER_NUMBER) are parsed tolerantly at
load time, so the field already holds the parsed integer. -/
structure RawRow where
  ORDER_NUMBER : Int
  ORDER_DATE : DateYMD
  QUANTITY_ORDERED : Int
  PRICE_EACH : ℚ
  MSRP : ℚ
  SALES : ℚ
  PRODUCTLINE : String
  PRODUCTCODE : String
  COUNTRY : String
  DEALSIZE : String
  STATUS : String
  CUSTOMER_NAME : String
  YEAR : Int
deriving DecidableEq, Repr

/-- Loaded sale record: the raw columns plus the three derived columns
computed by load_data. -/
structure Row extends RawRow where
  YEAR_MONTH : String
  PROFIT : ℚ
  PROFIT_MARGIN : ExtQ
deriving DecidableEq, Repr

/-- Profit margin as computed by
data PROFIT_MARGIN = (data PROFIT / data PRICE_EACH) * 100 on float64
columns: finite quotient when the price is nonzero, and the IEEE
result of division by zero otherwise (NaN for 0/0, signed infinity for
x/0 with x nonzero; multiplying by 100 preserves all three). -/
def marginOf (p price : ℚ) : ExtQ :=
  if price = 0 then
    if p = 0 then ExtQ.nan else if 0 < p then ExtQ.posInf else ExtQ.negInf
  else ExtQ.fin (p / price * 100)

/-- Derivation step of load_data: add YEAR_MONTH, PROFIT and
PROFIT_MARGIN to a raw row. -/
def derive (r : RawRow) : Row :=
  { r with
    YEAR_MONTH := ymStr r.ORDER_DATE
    PROFIT := r.PRICE_EACH - r.MSRP
    PROFIT_MARGIN := marginOf (r.PRICE_EACH - r.MSRP) r.PRICE_EACH }

/-- load_data: parse the CSV rows (already reflected in RawRow) and
compute the derived columns for every row. -/
def load_data (raws : List RawRow) : List Row := raws.map derive

/-- Filter Selection: the four sidebar multiselect value sets. -/
structure Selection where
  years : List Int
  statuses : List String
  product_lines : List String
  deal_sizes : List String

/-- Filter predicate of one row against a selection: conjunction of the
four isin membership tests. -/
def rowMatches (s : Selection) (r : Row) : Bool :=
  decide (r.YEAR ∈ s.years) && decide (r.STATUS ∈ s.statuses) &&
    decide (r.PRODUCTLINE ∈ s.product_lines) && decide (r.DEALSIZE ∈ s.deal_sizes)

/-- filtered_df: the rows of df whose YEAR, STATUS, PRODUCTLINE and
DEALSIZE each belong to the corresponding selection set. -/
def filtered_df (df : List Row) (s : Selection) : List Row :=
  df.filter (rowMatches s)

/-- C1: the Filtered View contains exactly the rows whose year, status,
product line and deal size each belong to the corresponding selection
set (AND across dimensions, OR within a set), and an empty selection on
any one dimension yields an empty Filtered View. -/
theorem c1_filter_membership (df : List Row) (s : Selection) :
    (∀ r : Row, r ∈ filtered_df df s ↔
      r ∈ df ∧ r.YEAR ∈ s.years ∧ r.STATUS ∈ s.statuses ∧
        r.PRODUCTLINE ∈ s.product_lines ∧ r.DEALSIZE ∈ s.deal_sizes) ∧
    ((s.years = [] ∨ s.statuses = [] ∨ s.product_lines = [] ∨ s.deal_sizes = []) →
      filtered_df df s = []) := by
  constructor
  · intro r
    simp [filtered_df, rowMatches, List.mem_filter, and_assoc]
  · intro h
    apply List.filter_eq_nil_iff.mpr
    intro r _
    rcases h with h | h | h | h <;>
      simp [rowMatches, h]

/-- Concrete rows and selections used by witnesses below. -/
def rawA : RawRow :=
  { ORDER_NUMBER := 10107, ORDER_DATE := ⟨2003, 1, 6⟩, QUANTITY_ORDERED := 30,
    PRICE_EACH := 95, MSRP := 90, SALES := 100, PRODUCTLINE := "Motorcycles",
    PRODUCTCODE := "S10_1678", COUNTRY := "USA", DEALSIZE := "Small",
    STATUS := "Shipped", CUSTOMER_NAME := "Land of Toys Inc.", YEAR := 2003 }

def rawB : RawRow :=
  { ORDER_NUMBER := 10121, ORDER_DATE := ⟨2004, 5, 7⟩, QUANTITY_ORDERED := 34,
    PRICE_EACH := 80, MSRP := 95, SALES := 200, PRODUCTLINE := "Classic Cars",
    PRODUCTCODE := "S10_1949", COUNTRY := "France", DEALSIZE := "Medium",
    STATUS := "Cancelled", CUSTOMER_NAME := "Reims Collectables", YEAR := 2004 }

def dfAB : List Row := load_data [rawA, rawB]

def selA : Selection :=
  { years := [2003], statuses := ["Shipped", "Cancelled"],
    product_lines := ["Motorcycles", "Classic Cars"],
    deal_sizes := ["Small", "Medium"] }

def selNone : Selection :=
  { years := [], statuses := ["Shipped"], product_lines := ["Motorcycles"],
    deal_sizes := ["Small"] }

/-- Witness for C1 at a concrete data set: the 2003 row is in the view
for a selection containing its values, and an empty year selection
empties the view. -/
theorem c1_filter_membership_witness :
    derive rawA ∈ filtered_df dfAB selA ∧ filtered_df dfAB selNone = [] :=
  ⟨((c1_filter_membership dfAB selA).1 (derive rawA)).mpr
      ⟨by simp [dfAB, load_data], by decide, by decide, by decide, by decide⟩,
    (c1_filter_membership dfAB selNone).2 (Or.inl rfl)⟩

/-- C2: for every loaded row, PROFIT = PRICE_EACH - MSRP, and when the
unit price is nonzero PROFIT_MARGIN = PROFIT / PRICE_EACH * 100. -/
theorem c2_profit_margin (raws : List RawRow) (r : Row) (hr : r ∈ load_data raws) :
    r.PROFIT = r.PRICE_EACH - r.MSRP ∧
      (r.PRICE_EACH ≠ 0 → r.PROFIT_MARGIN = ExtQ.fin (r.PROFIT / r.PRICE_EACH * 100)) := by
  rcases List.mem_map.mp hr with ⟨a, _, rfl⟩
  refine ⟨rfl, fun h => ?_⟩
  simp [derive, marginOf] at h ⊢
  simp [h]

/-- Witness for C2 at a concrete row with nonzero unit price. -/
theorem c2_profit_margin_witness :
    (derive rawA).PROFIT = (derive rawA).PRICE_EACH - (derive rawA).MSRP ∧
      (derive rawA).PROFIT_MARGIN =
        ExtQ.fin ((derive rawA).PROFIT / (derive rawA).PRICE_EACH * 100) :=
  ⟨(c2_profit_margin [rawA] (derive rawA) (by simp [load_data])).1,
    (c2_profit_margin [rawA] (derive rawA) (by simp [load_data])).2 (by decide)⟩

/-- C10: the Filtered View is a subsequence of the loaded data frame:
its rows are the very rows of df (unmodified), in the same relative
order.  The loaded frame itself is never mutated: filtering is a pure
function of df in the model, as in pandas boolean-mask indexing, which
returns a new frame. -/
theorem c10_filtered_sublist (df : List Row) (s : Selection) :
    List.Sublist (filtered_df df s) df :=
  List.filter_sublist df

/-! Aggregates over the Filtered View.  pandas groupby sorts group keys
ascending by default; value_counts sorts by count descending; nlargest
sorts by value descending and keeps the first ten. -/

/-- Descending-by-value order on keyed rational sums (pandas nlargest). -/
def descBySnd (a b : String × ℚ) : Prop := b.2 ≤ a.2

instance : DecidableRel descBySnd := fun a b => inferInstanceAs (Decidable (b.2 ≤ a.2))

instance : IsTotal (String × ℚ) descBySnd := ⟨fun a b => le_total b.2 a.2⟩

instance : IsTrans (String × ℚ) descBySnd := ⟨fun _ _ _ hab hbc => le_trans hbc hab⟩

/-- Descending-by-count order on keyed counts (pandas value_counts). -/
def descByCnt (a b : String × Nat) : Prop := b.2 ≤ a.2

instance : DecidableRel descByCnt := fun a b => inferInstanceAs (Decidable (b.2 ≤ a.2))

instance : IsTotal (String × Nat) descByCnt := ⟨fun a b => Nat.le_total b.2 a.2⟩

instance : IsTrans (String × Nat) descByCnt := ⟨fun _ _ _ hab hbc => le_trans hbc hab⟩

/-- groupby(key)[SALES].sum().reset_index(): one entry per distinct key
value of the view, keys sorted ascending, each entry carrying the sum of
SALES over the rows with that key. -/
def groupbySumSales (key : Row → String) (view : List Row) : List (String × ℚ) :=
  (List.insertionSort (fun a b => a ≤ b) ((view.map key).dedup)).map
    (fun k => (k, ((view.filter (fun r => key r == k)).map (fun r => r.SALES)).sum))

/-- total_sales: sum of the SALES column of the Filtered View. -/
def total_sales (view : List Row) : ℚ := (view.map (fun r => r.SALES)).sum

/-- sales_trend: SALES summed per YEAR_MONTH bucket. -/
def sales_trend (view : List Row) : List (String × ℚ) :=
  groupbySumSales (fun r => r.YEAR_MONTH) view

/-- sales_by_product: SALES summed per PRODUCTLINE. -/
def sales_by_product (view : List Row) : List (String × ℚ) :=
  groupbySumSales (fun r => r.PRODUCTLINE) view

/-- sales_by_country: SALES summed per COUNTRY. -/
def sales_by_country (view : List Row) : List (String × ℚ) :=
  groupbySumSales (fun r => r.COUNTRY) view

/-- deal_size_dist: value_counts of the DEALSIZE column, count per
distinct value, ordered by count descending. -/
def deal_size_dist (view : List Row) : List (String × Nat) :=
  List.insertionSort descByCnt
    (((view.map (fun r => r.DEALSIZE)).dedup).map
      (fun k => (k, (view.map (fun r => r.DEALSIZE)).count k)))

/-- top_customers: SALES summed per CUSTOMER_NAME, then nlargest(10):
sorted descending by summed sales, truncated to ten entries. -/
def top_customers (view : List Row) : List (String × ℚ) :=
  (List.insertionSort descBySnd (groupbySumSales (fun r => r.CUSTOMER_NAME) view)).take 10

/-- avg_profit_margin: pandas mean of the PROFIT_MARGIN column
(skipna=True drops NaN entries; infinities are kept). -/
def avg_profit_margin (view : List Row) : ExtQ :=
  ExtQ.meanSkipNan (view.map (fun r => r.PROFIT_MARGIN))

/-- C8: the deal-size distribution counts sum to the number of rows of
the Filtered View. -/
theorem c8_dealsize_counts_sum (view : List Row) :
    ((deal_size_dist view).map Prod.snd).sum = view.length := by
  have hperm :
      (deal_size_dist view).Perm
        (((view.map (fun r => r.DEALSIZE)).dedup).map
          (fun k => (k, (view.map (fun r => r.DEALSIZE)).count k))) :=
    List.perm_insertionSort descByCnt _
  calc ((deal_size_dist view).map Prod.snd).sum
      = ((((view.map (fun r => r.DEALSIZE)).dedup).map
          (fun k => (k, (view.map (fun r => r.DEALSIZE)).count k))).map Prod.snd).sum :=
        (hperm.map Prod.snd).sum_eq
    _ = (((view.map (fun r => r.DEALSIZE)).dedup).map
          (fun k => (view.map (fun r => r.DEALSIZE)).count k)).sum := by
        rw [List.map_map]; rfl
    _ = (view.map (fun r => r.DEALSIZE)).length := List.sum_map_count_dedup_eq_length _
    _ = view.length := List.length_map _ _

/-- C5: top-10 customers is sorted descending by summed sales, has at
most ten entries, and has fewer than ten entries only when the view has
fewer than ten distinct customer names. -/
theorem c5_top_customers (view : List Row) :
    List.Pairwise (fun a b : String × ℚ => b.2 ≤ a.2) (top_customers view) ∧
    (top_customers view).length ≤ 10 ∧
    ((top_customers view).length < 10 →
      ((view.map (fun r => r.CUSTOMER_NAME)).dedup).length < 10) := by
  have hsorted : List.Pairwise descBySnd (top_customers view) :=
    (List.sorted_insertionSort descBySnd
      (groupbySumSales (fun r => r.CUSTOMER_NAME) view)).sublist
      (List.take_sublist 10 _)
  have hlen : (top_customers view).length =
      min 10 ((view.map (fun r => r.CUSTOMER_NAME)).dedup).length := by
    simp [top_customers, List.length_take, List.length_insertionSort, groupbySumSales]
  refine ⟨hsorted, ?_, ?_⟩
  · rw [hlen]; exact min_le_left _ _
  · intro hlt
    rw [hlen] at hlt
    omega

/-- Witness for C5 on a one-row view: a single distinct customer, below
the threshold of ten. -/
theorem c5_top_customers_witness :
    (((load_data [rawA]).map (fun r => r.CUSTOMER_NAME)).dedup).length < 10 ∧
      (top_customers (load_data [rawA])).length ≤ 10 :=
  ⟨(c5_top_customers (load_data [rawA])).2.2 (by decide),
    (c5_top_customers (load_data [rawA])).2.1⟩

/-- C7: when the Filtered View is empty (all filters exclude every row),
nothing raises and every aggregate degrades gracefully: total sales is
zero, the grouped aggregates (monthly trend, by product line, by
country, deal-size distribution, top-10 customers) are empty, and the
raw-row view (the Filtered View itself) has no rows.  In the model every
aggregate is a total function, mirroring that pandas raises on none of
these calls for an empty frame. -/
theorem c7_empty_view (df : List Row) (s : Selection)
    (h : filtered_df df s = []) :
    total_sales (filtered_df df s) = 0 ∧
    sales_trend (filtered_df df s) = [] ∧
    sales_by_product (filtered_df df s) = [] ∧
    sales_by_country (filtered_df df s) = [] ∧
    deal_size_dist (filtered_df df s) = [] ∧
    top_customers (filtered_df df s) = [] ∧
    filtered_df df s = [] := by
  rw [h]
  exact ⟨rfl, rfl, rfl, rfl, rfl, rfl, rfl⟩

/-- Witness for C7: a concrete two-row frame with an empty year
selection. -/
theorem c7_empty_view_witness :
    total_sales (filtered_df dfAB selNone) = 0 ∧
    sales_trend (filtered_df dfAB selNone) = [] ∧
    sales_by_product (filtered_df dfAB selNone) = [] ∧
    sales_by_country (filtered_df dfAB selNone) = [] ∧
    deal_size_dist (filtered_df dfAB selNone) = [] ∧
    top_customers (filtered_df dfAB selNone) = [] ∧
    filtered_df dfAB selNone = [] :=
  c7_empty_view dfAB selNone (by decide)

/-- C9: the monthly sales trend has one entry per YEAR_MONTH bucket
present in the view, each entry being the sum of SALES over the rows of
its bucket, and the entries are ordered by bucket key strictly
ascending (the zero-padded YYYY-MM key makes this chronological). -/
theorem c9_sales_trend (view : List Row) :
    (∀ k : String, k ∈ (sales_trend view).map Prod.fst ↔
      ∃ r ∈ view, r.YEAR_MONTH = k) ∧
    (∀ e ∈ sales_trend view,
      e.2 = ((view.filter (fun r => r.YEAR_MONTH == e.1)).map (fun r => r.SALES)).sum) ∧
    List.Pairwise (fun a b : String × ℚ => a.1 < b.1) (sales_trend view) := by
  refine ⟨?_, ?_, ?_⟩
  · intro k
    simp only [sales_trend, groupbySumSales, List.map_map]
    constructor
    · intro hk
      rcases List.mem_map.mp hk with ⟨k', hk', rfl⟩
      have : k' ∈ (view.map (fun r => r.YEAR_MONTH)).dedup :=
        (List.mem_insertionSort _).mp hk'
      rcases List.mem_map.mp (List.mem_dedup.mp this) with ⟨r, hr, rfl⟩
      exact ⟨r, hr, rfl⟩
    · rintro ⟨r, hr, rfl⟩
      refine List.mem_map.mpr ⟨r.YEAR_MONTH, ?_, rfl⟩
      exact (List.mem_insertionSort _).mpr
        (List.mem_dedup.mpr (List.mem_map.mpr ⟨r, hr, rfl⟩))
  · intro e he
    rcases List.mem_map.mp he with ⟨k, _, rfl⟩
    rfl
  · have hnodup : ((view.map (fun r => r.YEAR_MONTH)).dedup).Nodup := List.nodup_dedup _
    have hsorted := List.sorted_insertionSort (fun a b : String => a ≤ b)
      ((view.map (fun r => r.YEAR_MONTH)).dedup)
    have hnodup' : (List.insertionSort (fun a b : String => a ≤ b)
        ((view.map (fun r => r.YEAR_MONTH)).dedup)).Nodup :=
      ((List.perm_insertionSort _ _).nodup_iff).mpr hnodup
    have hlt : List.Pairwise (fun a b : String => a < b)
        (List.insertionSort (fun a b : String => a ≤ b)
          ((view.map (fun r => r.YEAR_MONTH)).dedup)) :=
      (hsorted.and hnodup').imp (fun h => lt_of_le_of_ne h.1 h.2)
    exact List.pairwise_map.mpr (hlt.imp (fun h => h))

/-- Witness for C9 on a one-row view: the single YEAR_MONTH bucket
2003-01 appears among the trend keys. -/
theorem c9_sales_trend_witness :
    ymStr ⟨2003, 1, 6⟩ ∈ (sales_trend (load_data [rawA])).map Prod.fst :=
  ((c9_sales_trend (load_data [rawA])).1 (ymStr ⟨2003, 1, 6⟩)).mpr
    ⟨derive rawA, by simp [load_data], rfl⟩

/-- Dimension-tagged value to be removed from one selection set. -/
inductive DimVal where
  | year (v : Int)
  | status (v : String)
  | productLine (v : String)
  | dealSize (v : String)

/-- Narrowing: remove one value from the selection set of one
dimension, leaving the other three sets unchanged. -/
def removeOne (s : Selection) : DimVal → Selection
  | .year v => { s with years := s.years.erase v }
  | .status v => { s with statuses := s.statuses.erase v }
  | .productLine v => { s with product_lines := s.product_lines.erase v }
  | .dealSize v => { s with deal_sizes := s.deal_sizes.erase v }

/-- Sum of SALES over a filter is monotone in the predicate when all
SALES values are non-negative. -/
theorem total_sales_filter_mono (p q : Row → Bool) (df : List Row)
    (hpq : ∀ r : Row, q r = true → p r = true)
    (hnn : ∀ r ∈ df, 0 ≤ r.SALES) :
    total_sales (df.filter q) ≤ total_sales (df.filter p) := by
  induction df with
  | nil => exact le_refl _
  | cons a l ih =>
    have hnnl : ∀ r ∈ l, 0 ≤ r.SALES := fun r hr => hnn r (List.mem_cons_of_mem a hr)
    have ihl := ih hnnl
    by_cases hq : q a = true
    · have hp := hpq a hq
      simp only [List.filter_cons, hq, hp, if_true]
      simp only [total_sales, List.map_cons, List.sum_cons]
      exact add_le_add_left ihl _
    · have hq' : q a = false := Bool.eq_false_iff.mpr hq
      by_cases hp : p a = true
      · simp only [List.filter_cons, hq', hp, if_true, Bool.false_eq_true, if_false]
        simp only [total_sales, List.map_cons, List.sum_cons]
        calc total_sales (l.filter q) ≤ total_sales (l.filter p) := ihl
          _ ≤ a.SALES + total_sales (l.filter p) :=
            le_add_of_nonneg_left (hnn a (List.mem_cons_self a l))
      · have hp' : p a = false := Bool.eq_false_iff.mpr hp
        simp only [List.filter_cons, hq', hp', Bool.false_eq_true, if_false]
        exact ihl

/-- Narrowed filter predicates are pointwise stronger. -/
theorem rowMatches_removeOne (s : Selection) (d : DimVal) (r : Row)
    (h : rowMatches (removeOne s d) r = true) : rowMatches s r = true := by
  cases d with
  | year v =>
    simp only [rowMatches, removeOne, Bool.and_eq_true, decide_eq_true_iff] at h ⊢
    exact ⟨⟨⟨List.mem_of_mem_erase h.1.1.1, h.1.1.2⟩, h.1.2⟩, h.2⟩
  | status v =>
    simp only [rowMatches, removeOne, Bool.and_eq_true, decide_eq_true_iff] at h ⊢
    exact ⟨⟨⟨h.1.1.1, List.mem_of_mem_erase h.1.1.2⟩, h.1.2⟩, h.2⟩
  | productLine v =>
    simp only [rowMatches, removeOne, Bool.and_eq_true, decide_eq_true_iff] at h ⊢
    exact ⟨⟨⟨h.1.1.1, h.1.1.2⟩, List.mem_of_mem_erase h.1.2⟩, h.2⟩
  | dealSize v =>
    simp only [rowMatches, removeOne, Bool.and_eq_true, decide_eq_true_iff] at h ⊢
    exact ⟨⟨⟨h.1.1.1, h.1.1.2⟩, h.1.2⟩, List.mem_of_mem_erase h.2⟩

/-- C6: removing one value from one dimension of the Filter Selection
never increases total sales, provided every sales amount is
non-negative. -/
theorem c6_narrowing_monotone (df : List Row) (s : Selection) (d : DimVal)
    (hnn : ∀ r ∈ df, 0 ≤ r.SALES) :
    total_sales (filtered_df df (removeOne s d)) ≤ total_sales (filtered_df df s) :=
  total_sales_filter_mono (rowMatches s) (rowMatches (removeOne s d)) df
    (fun r => rowMatches_removeOne s d r) hnn

def selAll : Selection :=
  { years := [2003, 2004], statuses := ["Shipped", "Cancelled"],
    product_lines := ["Motorcycles", "Classic Cars"],
    deal_sizes := ["Small", "Medium"] }

/-- Witness for C6: removing year 2004 from a full selection over the
two-row frame does not increase total sales. -/
theorem c6_narrowing_monotone_witness :
    total_sales (filtered_df dfAB (removeOne selAll (DimVal.year 2004))) ≤
      total_sales (filtered_df dfAB selAll) :=
  c6_narrowing_monotone dfAB selAll (DimVal.year 2004) (by
    intro r hr
    simp only [dfAB, load_data, List.map_cons, List.map_nil, List.mem_cons,
      List.not_mem_nil, or_false] at hr
    rcases hr with rfl | rfl <;> decide)

/-- Raw row with a zero unit price and a positive cost basis: its
derived profit is negative, so its profit margin is negative infinity. -/
def rawZero : RawRow :=
  { rawA with PRICE_EACH := 0, MSRP := 100 }

/-- C3 counterexample: on the one-row dataset whose unit price is 0 and
whose cost basis is 100, the derived profit margin is negative infinity
and the average-profit-margin aggregate evaluates to negative infinity —
the zero-price row is neither excluded from the mean (which would give
NaN on this dataset, as for an empty column) nor treated as a zero
contribution (which would give a finite 0); it corrupts the aggregate. -/
theorem c3_zero_price_counterexample :
    avg_profit_margin (load_data [rawZero]) = ExtQ.negInf ∧
      ExtQ.negInf ≠ ExtQ.nan ∧ ExtQ.negInf ≠ ExtQ.fin 0 := by
  refine ⟨?_, by decide, by decide⟩
  have hm : (derive rawZero).PROFIT_MARGIN = ExtQ.negInf := by
    simp only [derive, marginOf, rawZero, rawA]
    norm_num
  simp [avg_profit_margin, load_data, ExtQ.meanSkipNan, hm, ExtQ.isNan,
    ExtQ.sumL, ExtQ.add, ExtQ.divNat]

/-- C3 as amended: deriving a zero-price row never raises and yields a
non-finite sentinel — NaN exactly when the profit is also zero, a
signed infinity otherwise; NaN margins are excluded from the
average-profit-margin aggregate (dropping the NaN-margin rows leaves
the aggregate unchanged), but infinite margins propagate into it. -/
theorem c3_zero_price_amended (raws : List RawRow) :
    (∀ r ∈ load_data raws, r.PRICE_EACH = 0 →
      ((r.PROFIT_MARGIN = ExtQ.nan ∨ r.PROFIT_MARGIN = ExtQ.posInf ∨
          r.PROFIT_MARGIN = ExtQ.negInf) ∧
        (r.PROFIT = 0 → r.PROFIT_MARGIN = ExtQ.nan))) ∧
    (∀ view : List Row,
      avg_profit_margin view =
        avg_profit_margin (view.filter (fun r => !r.PROFIT_MARGIN.isNan))) := by
  constructor
  · intro r hr hp
    rcases List.mem_map.mp hr with ⟨a, _, rfl⟩
    have hp' : a.PRICE_EACH = 0 := hp
    have hprofit : (derive a).PROFIT = a.PRICE_EACH - a.MSRP := rfl
    constructor
    · simp only [derive, marginOf, hp', if_true, if_pos rfl]
      split_ifs <;> simp
    · intro h0
      rw [hprofit, hp'] at h0
      simp [derive, marginOf, hp', h0]
  · intro view
    have hmap : (view.filter (fun r => !r.PROFIT_MARGIN.isNan)).map
        (fun r => r.PROFIT_MARGIN) =
        (view.map (fun r => r.PROFIT_MARGIN)).filter (fun v => !v.isNan) := by
      induction view with
      | nil => rfl
      | cons a t ih =>
        by_cases h : (!a.PROFIT_MARGIN.isNan) = true <;>
          simp only [List.filter_cons, List.map_cons, h, if_true, Bool.false_eq_true,
            if_false, List.map_cons, ih]
    simp only [avg_profit_margin, ExtQ.meanSkipNan, hmap, List.filter_filter,
      Bool.and_self]

/-- Witness for C3 as amended: the concrete zero-price row has an
infinite margin (profit nonzero), and a zero-price zero-cost row has a
NaN margin. -/
theorem c3_zero_price_amended_witness :
    ((derive rawZero).PROFIT_MARGIN = ExtQ.nan ∨
      (derive rawZero).PROFIT_MARGIN = ExtQ.posInf ∨
      (derive rawZero).PROFIT_MARGIN = ExtQ.negInf) ∧
    avg_profit_margin dfAB =
      avg_profit_margin (dfAB.filter (fun r => !r.PROFIT_MARGIN.isNan)) :=
  ⟨((c3_zero_price_amended [rawZero]).1 (derive rawZero) (by simp [load_data]) rfl).1,
    (c3_zero_price_amended []).2 dfAB⟩

/-! Export / reload codec (claim C4).  The spec scopes out CSV file I/O
mechanics (quoting, escaping), so the delimited text is modelled at the
level pandas sees it: a header row of column names followed by one list
of cell strings per record.  Cell rendering and parsing are modelled
faithfully: integers in decimal with an optional sign, read back with
the thousands-separator-tolerant parser of read_csv; monetary values in
plain decimal notation; dates as zero-padded Y-M-D. -/

/-- Value of a least-significant-first digit list. -/
def ofDigitsRev : List Nat → Nat
  | [] => 0
  | d :: ds => d + 10 * ofDigitsRev ds

theorem natDigitsRevFuel_spec : ∀ fuel n, n ≤ fuel →
    ofDigitsRev (natDigitsRevFuel fuel n) = n := by
  intro fuel
  induction fuel with
  | zero =>
    intro n hn
    interval_cases n
    rfl
  | succ f ih =>
    intro n hn
    cases n with
    | zero => rfl
    | succ m =>
      simp only [natDigitsRevFuel, ofDigitsRev]
      have h1 : (m + 1) / 10 ≤ f := by omega
      rw [ih _ h1]
      omega

theorem natDigitsRevFuel_lt10 : ∀ fuel n d, d ∈ natDigitsRevFuel fuel n → d < 10 := by
  intro fuel
  induction fuel with
  | zero => intro n d hd; simp [natDigitsRevFuel] at hd
  | succ f ih =>
    intro n d hd
    cases n with
    | zero => simp [natDigitsRevFuel] at hd
    | succ m =>
      simp only [natDigitsRevFuel, List.mem_cons] at hd
      rcases hd with rfl | hd
      · omega
      · exact ih _ _ hd

theorem natDigitsRevFuel_ne_nil (fuel n : Nat) (h0 : 0 < n) (hn : n ≤ fuel) :
    natDigitsRevFuel fuel n ≠ [] := by
  cases fuel with
  | zero => omega
  | succ f =>
    cases n with
    | zero => omega
    | succ m => simp [natDigitsRevFuel]

theorem natDigitsRevFuel_length : ∀ fuel e n, n ≤ fuel → n < 10 ^ e →
    (natDigitsRevFuel fuel n).length ≤ e := by
  intro fuel
  induction fuel with
  | zero =>
    intro e n hn _
    interval_cases n
    simp [natDigitsRevFuel]
  | succ f ih =>
    intro e n hn hlt
    cases n with
    | zero => simp [natDigitsRevFuel]
    | succ m =>
      cases e with
      | zero => simp at hlt
      | succ e' =>
        simp only [natDigitsRevFuel, List.length_cons]
        have hdiv : (m + 1) / 10 < 10 ^ e' := by
          have h10 : (10 : Nat) ^ (e' + 1) = 10 ^ e' * 10 := pow_succ 10 e'
          rw [Nat.div_lt_iff_lt_mul (by norm_num)]
          omega
        have h1 : (m + 1) / 10 ≤ f := by omega
        exact Nat.succ_le_succ (ih e' _ h1 hdiv)

/-- Decimal digit test on characters. -/
def isDigit10 (c : Char) : Bool := 48 ≤ c.toNat && c.toNat ≤ 57

/-- Numeric value of a digit character. -/
def charDigitVal (c : Char) : Nat := c.toNat - 48

theorem charDigitVal_digitChar {d : Nat} (hd : d < 10) :
    charDigitVal (digitChar d) = d := by
  interval_cases d <;> rfl

theorem isDigit10_digitChar {d : Nat} (hd : d < 10) :
    isDigit10 (digitChar d) = true := by
  interval_cases d <;> decide

theorem isDigit10_ne_comma {c : Char} (h : isDigit10 c = true) : (c == ',') = false := by
  cases hc : c == ','
  · rfl
  · rw [beq_iff_eq] at hc
    subst hc
    exact absurd h (by decide)

theorem isDigit10_ne_dash {c : Char} (h : isDigit10 c = true) : c ≠ '-' := by
  intro hc
  subst hc
  exact absurd h (by decide)

theorem isDigit10_ne_dot {c : Char} (h : isDigit10 c = true) : c ≠ '.' := by
  intro hc
  subst hc
  exact absurd h (by decide)

theorem natRender_digits (n : Nat) : ∀ c ∈ natRender n, isDigit10 c = true := by
  intro c hc
  unfold natRender at hc
  by_cases h : n = 0
  · rw [if_pos h] at hc
    simp only [List.mem_singleton] at hc
    subst hc
    decide
  · rw [if_neg h] at hc
    rw [List.mem_reverse] at hc
    rcases List.mem_map.mp hc with ⟨d, hd, rfl⟩
    exact isDigit10_digitChar (natDigitsRevFuel_lt10 n n d hd)

theorem natRender_ne_nil (n : Nat) : natRender n ≠ [] := by
  unfold natRender
  by_cases h : n = 0
  · rw [if_pos h]; simp
  · rw [if_neg h]
    simp only [ne_eq, List.reverse_eq_nil_iff, List.map_eq_nil_iff]
    exact natDigitsRevFuel_ne_nil n n (by omega) (le_refl n)

theorem natRender_length_le {n e : Nat} (he : 0 < e) (h : n < 10 ^ e) :
    (natRender n).length ≤ e := by
  unfold natRender
  by_cases h0 : n = 0
  · rw [if_pos h0]; simpa using he
  · rw [if_neg h0]
    rw [List.length_reverse, List.length_map]
    exact natDigitsRevFuel_length n e n (le_refl n) h

/-- Tolerant decimal parser for naturals: requires a nonempty all-digit
string. -/
def natParse (cs : List Char) : Option Nat :=
  if cs = [] then none
  else if cs.all isDigit10 then some (ofDigitsRev (cs.reverse.map charDigitVal))
  else none

theorem ofDigitsRev_append_zeros (l : List Nat) (k : Nat) :
    ofDigitsRev (l ++ List.replicate k 0) = ofDigitsRev l := by
  induction l with
  | nil =>
    simp only [List.nil_append, ofDigitsRev]
    induction k with
    | zero => rfl
    | succ k ihk => simpa [List.replicate_succ, ofDigitsRev] using ihk
  | cons d ds ih => simp [ofDigitsRev, ih]

theorem natRender_val (n : Nat) :
    ofDigitsRev ((natRender n).reverse.map charDigitVal) = n := by
  by_cases h : n = 0
  · subst h; rfl
  · unfold natRender
    rw [if_neg h, List.reverse_reverse, List.map_map]
    have hmap : (natDigitsRev n).map (charDigitVal ∘ digitChar) = natDigitsRev n := by
      have : ∀ d ∈ natDigitsRev n, (charDigitVal ∘ digitChar) d = id d := by
        intro d hd
        exact charDigitVal_digitChar (natDigitsRevFuel_lt10 n n d hd)
      rw [List.map_congr_left this, List.map_id]
    rw [hmap]
    exact natDigitsRevFuel_spec n n (le_refl n)

theorem natParse_of_digits (cs : List Char) (h1 : cs ≠ [])
    (h2 : ∀ c ∈ cs, isDigit10 c = true) :
    natParse cs = some (ofDigitsRev (cs.reverse.map charDigitVal)) := by
  unfold natParse
  rw [if_neg h1, if_pos (List.all_eq_true.mpr h2)]

theorem natParse_render (n : Nat) : natParse (natRender n) = some n := by
  rw [natParse_of_digits _ (natRender_ne_nil n) (natRender_digits n), natRender_val]

theorem natParse_pad (w n : Nat) : natParse (natPad w n) = some n := by
  unfold natPad
  have hdig : ∀ c ∈ List.replicate (w - (natRender n).length) '0' ++ natRender n,
      isDigit10 c = true := by
    intro c hc
    rcases List.mem_append.mp hc with hc | hc
    · rw [List.eq_of_mem_replicate hc]; decide
    · exact natRender_digits n c hc
  have hne : List.replicate (w - (natRender n).length) '0' ++ natRender n ≠ [] := by
    simp only [ne_eq, List.append_eq_nil]
    rintro ⟨-, h⟩
    exact natRender_ne_nil n h
  rw [natParse_of_digits _ hne hdig]
  rw [List.reverse_append, List.map_append, List.reverse_replicate, List.map_replicate]
  have h0 : charDigitVal '0' = 0 := rfl
  rw [h0, ofDigitsRev_append_zeros, natRender_val]

theorem natPad_length {w n : Nat} (hw : 0 < w) (h : n < 10 ^ w) :
    (natPad w n).length = w := by
  unfold natPad
  rw [List.length_append, List.length_replicate]
  have := natRender_length_le hw h
  omega

/-- Decimal rendering of an integer with optional leading minus sign. -/
def intRender (i : Int) : List Char :=
  if i < 0 then '-' :: natRender i.natAbs else natRender i.natAbs

/-- Integer cell parser modelling read_csv with thousands set to comma:
grouping commas are stripped before the digits are read. -/
def intParse (cs0 : List Char) : Option Int :=
  if (cs0.filter (fun c => !(c == ','))).head? = some '-' then
    (natParse (cs0.filter (fun c => !(c == ','))).tail).map (fun n : Nat => -(n : Int))
  else (natParse (cs0.filter (fun c => !(c == ',')))).map (fun n : Nat => (n : Int))

theorem filter_comma_of_digits (cs : List Char)
    (h : ∀ c ∈ cs, isDigit10 c = true) :
    cs.filter (fun c => !(c == ',')) = cs :=
  List.filter_eq_self.mpr (fun c hc => by rw [isDigit10_ne_comma (h c hc)]; rfl)

theorem natRender_head_not_dash (n : Nat) : (natRender n).head? ≠ some '-' := by
  cases h : natRender n with
  | nil => simp
  | cons c cs =>
    simp only [List.head?_cons, ne_eq, Option.some.injEq]
    have hc : isDigit10 c = true := natRender_digits n c (by rw [h]; exact List.mem_cons_self c cs)
    exact isDigit10_ne_dash hc

theorem intParse_render (i : Int) : intParse (intRender i) = some i := by
  unfold intParse intRender
  by_cases hi : i < 0
  · rw [if_pos hi]
    have hfil : ('-' :: natRender i.natAbs).filter (fun c => !(c == ',')) =
        '-' :: natRender i.natAbs := by
      rw [List.filter_cons_of_pos (by decide),
        filter_comma_of_digits _ (natRender_digits _)]
    rw [hfil]
    rw [if_pos (show ('-' :: natRender i.natAbs).head? = some '-' from rfl)]
    rw [List.tail_cons, natParse_render, Option.map_some']
    exact congrArg some (by omega)
  · rw [if_neg hi]
    rw [filter_comma_of_digits _ (natRender_digits _)]
    rw [if_neg (natRender_head_not_dash _), natParse_render, Option.map_some']
    exact congrArg some (by omega)

/-- Date rendering: zero-padded Y-M-D, the format the loader's
to_datetime accepts back. -/
def dateRender (dt : DateYMD) : List Char :=
  natPad 4 dt.y ++ '-' :: (natPad 2 dt.m ++ '-' :: natPad 2 dt.d)

/-- Split a character list at every dash. -/
def splitDashAll : List Char → List (List Char)
  | [] => [[]]
  | c :: cs =>
    match splitDashAll cs with
    | [] => [[]]
    | g :: gs => if c = '-' then [] :: g :: gs else (c :: g) :: gs

theorem splitDashAll_ne_nil (cs : List Char) : splitDashAll cs ≠ [] := by
  induction cs with
  | nil => simp [splitDashAll]
  | cons c cs ih =>
    simp only [splitDashAll]
    cases h : splitDashAll cs with
    | nil => simp
    | cons g gs =>
      by_cases hc : c = '-' <;> simp [hc]

theorem splitDashAll_no_dash (a : List Char) (ha : ∀ c ∈ a, c ≠ '-') :
    splitDashAll a = [a] := by
  induction a with
  | nil => rfl
  | cons c cs ih =>
    have hc : c ≠ '-' := ha c (List.mem_cons_self c cs)
    have ih' := ih (fun x hx => ha x (List.mem_cons_of_mem c hx))
    simp [splitDashAll, ih', hc]

theorem splitDashAll_append (a rest : List Char) (ha : ∀ c ∈ a, c ≠ '-') :
    splitDashAll (a ++ '-' :: rest) = a :: splitDashAll rest := by
  induction a with
  | nil =>
    simp only [List.nil_append, splitDashAll]
    cases h : splitDashAll rest with
    | nil => exact absurd h (splitDashAll_ne_nil rest)
    | cons g gs => simp
  | cons c cs ih =>
    have hc : c ≠ '-' := ha c (List.mem_cons_self c cs)
    have ih' := ih (fun x hx => ha x (List.mem_cons_of_mem c hx))
    have hstep : splitDashAll (c :: (cs ++ '-' :: rest)) =
        match splitDashAll (cs ++ '-' :: rest) with
        | [] => [[]]
        | g :: gs => if c = '-' then [] :: g :: gs else (c :: g) :: gs := rfl
    rw [List.cons_append, hstep, ih']
    simp [hc]

/-- Date cell parser: three dash-separated decimal fields. -/
def dateParse (cs : List Char) : Option DateYMD :=
  match splitDashAll cs with
  | [ys, ms, ds] =>
    match natParse ys, natParse ms, natParse ds with
    | some y, some m, some d => some ⟨y, m, d⟩
    | _, _, _ => none
  | _ => none

theorem natPad_no_dash (w n : Nat) : ∀ c ∈ natPad w n, c ≠ '-' := by
  intro c hc
  unfold natPad at hc
  rcases List.mem_append.mp hc with hc | hc
  · rw [List.eq_of_mem_replicate hc]; decide
  · exact isDigit10_ne_dash (natRender_digits n c hc)

theorem dateParse_render (dt : DateYMD) : dateParse (dateRender dt) = some dt := by
  unfold dateParse dateRender
  rw [splitDashAll_append _ _ (natPad_no_dash 4 dt.y),
    splitDashAll_append _ _ (natPad_no_dash 2 dt.m),
    splitDashAll_no_dash _ (natPad_no_dash 2 dt.d)]
  simp [natParse_pad]

/-- Test whether 10^e clears the denominator of q. -/
def decExpTest (q : ℚ) (e : Nat) : Bool := (10 ^ e) % q.den == 0

/-- Smallest exponent up to 18 clearing the denominator: every binary
fraction a float column can hold has a finite decimal expansion, and
pandas prints that expansion; the search bound mirrors the 64-bit
float's maximum of 18 significant decimal digits of scale. -/
def ratDecExp (q : ℚ) : Option Nat := (List.range 19).find? (decExpTest q)

/-- Integer mantissa of q at scale e (exact when q.den divides 10^e). -/
def ratMantissa (q : ℚ) (e : Nat) : Int := q.num * ((10 ^ e) / q.den : Nat)

/-- Decimal rendering of a rational cell: integer form when the value is
integral, otherwise sign, integer part, dot, and an e-digit zero-padded
fraction part.  Values with no decimal expansion at scale 18 cannot
occur in a float column; they render in num/den form for totality. -/
def ratRender (q : ℚ) : List Char :=
  match ratDecExp q with
  | none => intRender q.num ++ '/' :: natRender q.den
  | some e =>
    if e = 0 then intRender (ratMantissa q 0)
    else
      (if ratMantissa q e < 0 then ['-'] else []) ++
        natRender ((ratMantissa q e).natAbs / 10 ^ e) ++
        '.' :: natPad e ((ratMantissa q e).natAbs % 10 ^ e)

/-- Split a character list at the first dot. -/
def splitDot : List Char → List Char × Option (List Char)
  | [] => ([], none)
  | c :: cs =>
    if c = '.' then ([], some cs)
    else ((c :: (splitDot cs).1), (splitDot cs).2)

theorem splitDot_no_dot (a : List Char) (ha : ∀ c ∈ a, c ≠ '.') :
    splitDot a = (a, none) := by
  induction a with
  | nil => rfl
  | cons c cs ih =>
    have hc : c ≠ '.' := ha c (List.mem_cons_self c cs)
    have ih' := ih (fun x hx => ha x (List.mem_cons_of_mem c hx))
    simp [splitDot, hc, ih']

theorem splitDot_append (a b : List Char) (ha : ∀ c ∈ a, c ≠ '.') :
    splitDot (a ++ '.' :: b) = (a, some b) := by
  induction a with
  | nil => simp [splitDot]
  | cons c cs ih =>
    have hc : c ≠ '.' := ha c (List.mem_cons_self c cs)
    have ih' := ih (fun x hx => ha x (List.mem_cons_of_mem c hx))
    simp [splitDot, hc, ih']

/-- Unsigned decimal parser: integer part, optional dot and fraction
part whose length fixes the scale. -/
def ratParseUnsigned (cs : List Char) : Option ℚ :=
  match splitDot cs with
  | (ip, none) => (natParse ip).map (fun n : Nat => (n : ℚ))
  | (ip, some fp) =>
    match natParse ip, natParse fp with
    | some i, some f => some ((i : ℚ) + (f : ℚ) / (10 : ℚ) ^ fp.length)
    | _, _ => none

/-- Rational cell parser: strip grouping commas, take an optional
leading minus sign, parse the unsigned decimal remainder. -/
def ratParse (cs0 : List Char) : Option ℚ :=
  if (cs0.filter (fun c => !(c == ','))).head? = some '-' then
    (ratParseUnsigned (cs0.filter (fun c => !(c == ','))).tail).map (fun q : ℚ => -q)
  else ratParseUnsigned (cs0.filter (fun c => !(c == ',')))

theorem natRender_no_dot (n : Nat) : ∀ c ∈ natRender n, c ≠ '.' :=
  fun c hc => isDigit10_ne_dot (natRender_digits n c hc)

theorem natPad_digits (w n : Nat) : ∀ c ∈ natPad w n, isDigit10 c = true := by
  intro c hc
  rcases List.mem_append.mp hc with hc | hc
  · rw [List.eq_of_mem_replicate hc]; decide
  · exact natRender_digits n c hc

theorem ratParseUnsigned_nat (n : Nat) :
    ratParseUnsigned (natRender n) = some (n : ℚ) := by
  unfold ratParseUnsigned
  rw [splitDot_no_dot _ (natRender_no_dot n)]
  show (natParse (natRender n)).map (fun k : Nat => (k : ℚ)) = some (n : ℚ)
  rw [natParse_render, Option.map_some']

theorem ratParseUnsigned_dec (i f e : Nat) (he : 0 < e) (hf : f < 10 ^ e) :
    ratParseUnsigned (natRender i ++ '.' :: natPad e f) =
      some ((i : ℚ) + (f : ℚ) / (10 : ℚ) ^ e) := by
  unfold ratParseUnsigned
  rw [splitDot_append _ _ (natRender_no_dot i)]
  show (match natParse (natRender i), natParse (natPad e f) with
    | some i2, some f2 => some ((i2 : ℚ) + (f2 : ℚ) / (10 : ℚ) ^ (natPad e f).length)
    | _, _ => none) = some ((i : ℚ) + (f : ℚ) / (10 : ℚ) ^ e)
  rw [natParse_render, natParse_pad]
  show some ((i : ℚ) + (f : ℚ) / (10 : ℚ) ^ (natPad e f).length) =
    some ((i : ℚ) + (f : ℚ) / (10 : ℚ) ^ e)
  rw [natPad_length he hf]

theorem div_mod_decomp (a e : Nat) :
    ((a / 10 ^ e : Nat) : ℚ) + ((a % 10 ^ e : Nat) : ℚ) / (10 : ℚ) ^ e =
      (a : ℚ) / (10 : ℚ) ^ e := by
  have h10 : ((10 : ℚ)) ^ e ≠ 0 := by positivity
  have key : 10 ^ e * (a / 10 ^ e) + a % 10 ^ e = a := Nat.div_add_mod a (10 ^ e)
  have keyQ : ((10 : ℚ)) ^ e * ((a / 10 ^ e : Nat) : ℚ) + ((a % 10 ^ e : Nat) : ℚ)
      = (a : ℚ) := by exact_mod_cast key
  field_simp
  linarith [keyQ]

theorem ratMantissa_val (q : ℚ) (e : Nat) (hd : q.den ∣ 10 ^ e) :
    ((ratMantissa q e : Int) : ℚ) = q * (10 : ℚ) ^ e := by
  unfold ratMantissa
  have hden : ((q.den : Nat) : ℚ) ≠ 0 := Nat.cast_ne_zero.mpr (Rat.den_ne_zero q)
  have hc : ((10 ^ e / q.den : Nat) : ℚ) * ((q.den : Nat) : ℚ) = (10 : ℚ) ^ e := by
    exact_mod_cast Nat.div_mul_cancel hd
  have hnum : ((q.num : Int) : ℚ) = q * ((q.den : Nat) : ℚ) :=
    (div_eq_iff hden).mp (Rat.num_div_den q)
  rw [Int.cast_mul, Int.cast_natCast, hnum, mul_assoc, mul_comm ((q.den : Nat) : ℚ), hc]

theorem ratMantissa_div (q : ℚ) (e : Nat) (hd : q.den ∣ 10 ^ e) :
    ((ratMantissa q e : Int) : ℚ) / (10 : ℚ) ^ e = q := by
  have h10 : ((10 : ℚ)) ^ e ≠ 0 := by positivity
  rw [ratMantissa_val q e hd]
  field_simp

theorem ratRender_eq (q : ℚ) (e : Nat) (he : ratDecExp q = some e) :
    ratRender q = if e = 0 then intRender (ratMantissa q 0)
      else (if ratMantissa q e < 0 then ['-'] else []) ++
        natRender ((ratMantissa q e).natAbs / 10 ^ e) ++
        '.' :: natPad e ((ratMantissa q e).natAbs % 10 ^ e) := by
  unfold ratRender
  rw [he]

theorem head_append_not_dash (i0 : Nat) (rest : List Char) :
    ¬ ((natRender i0 ++ rest).head? = some '-') := by
  cases h : natRender i0 with
  | nil => exact absurd h (natRender_ne_nil i0)
  | cons c cs =>
    intro hh
    rw [List.cons_append, List.head?_cons] at hh
    have hc : c = '-' := Option.some.inj hh
    have : isDigit10 c = true :=
      natRender_digits i0 c (by rw [h]; exact List.mem_cons_self c cs)
    exact isDigit10_ne_dash this hc

theorem natAbs_cast_of_neg {z : Int} (hz : z < 0) :
    ((z.natAbs : Nat) : ℚ) = -((z : Int) : ℚ) := by
  have h1 : ((z.natAbs : Nat) : Int) = -z := by omega
  calc ((z.natAbs : Nat) : ℚ) = (((z.natAbs : Nat) : Int) : ℚ) :=
        (Int.cast_natCast z.natAbs).symm
    _ = ((-z : Int) : ℚ) := by rw [h1]
    _ = -((z : Int) : ℚ) := by push_cast; ring

theorem natAbs_cast_of_nonneg {z : Int} (hz : ¬z < 0) :
    ((z.natAbs : Nat) : ℚ) = ((z : Int) : ℚ) := by
  have h1 : ((z.natAbs : Nat) : Int) = z := by omega
  calc ((z.natAbs : Nat) : ℚ) = (((z.natAbs : Nat) : Int) : ℚ) :=
        (Int.cast_natCast z.natAbs).symm
    _ = ((z : Int) : ℚ) := by rw [h1]

/-- Round trip of the rational cell codec for values with a decimal
expansion of scale at most 18 (every value a float column holds). -/
theorem ratParse_render (q : ℚ) (hq : (10 ^ 18) % q.den = 0) :
    ratParse (ratRender q) = some q := by
  have h18 : decExpTest q 18 = true := by
    unfold decExpTest
    rw [hq]
    rfl
  have hsome : (ratDecExp q).isSome := by
    unfold ratDecExp
    exact List.find?_isSome.mpr ⟨18, by simp, h18⟩
  obtain ⟨e, he⟩ := Option.isSome_iff_exists.mp hsome
  have he' : (List.range 19).find? (decExpTest q) = some e := he
  have hdvd : q.den ∣ 10 ^ e :=
    Nat.dvd_of_mod_eq_zero (by simpa [decExpTest] using List.find?_some he')
  rw [ratRender_eq q e he]
  by_cases he0 : e = 0
  · subst he0
    have hden1 : q.den = 1 := Nat.dvd_one.mp (by simpa using hdvd)
    have hm0 : ratMantissa q 0 = q.num := by
      unfold ratMantissa
      rw [hden1]
      simp
    rw [if_pos rfl, hm0]
    have hqnum : ((q.num : Int) : ℚ) = q := by
      conv_rhs => rw [← Rat.num_div_den q]
      rw [hden1]
      simp
    unfold ratParse intRender
    by_cases hi : q.num < 0
    · rw [if_pos hi]
      have hfil : ('-' :: natRender q.num.natAbs).filter (fun c => !(c == ',')) =
          '-' :: natRender q.num.natAbs := by
        rw [List.filter_cons_of_pos (by decide),
          filter_comma_of_digits _ (natRender_digits _)]
      rw [hfil]
      rw [if_pos (show ('-' :: natRender q.num.natAbs).head? = some '-' from rfl)]
      rw [List.tail_cons, ratParseUnsigned_nat, Option.map_some']
      refine congrArg some ?_
      rw [natAbs_cast_of_neg hi, hqnum, neg_neg]
    · rw [if_neg hi]
      rw [filter_comma_of_digits _ (natRender_digits _)]
      rw [if_neg (natRender_head_not_dash _), ratParseUnsigned_nat]
      refine congrArg some ?_
      rw [natAbs_cast_of_nonneg hi, hqnum]
  · rw [if_neg he0]
    have hepos : 0 < e := Nat.pos_of_ne_zero he0
    have hflt : (ratMantissa q e).natAbs % 10 ^ e < 10 ^ e := Nat.mod_lt _ (by positivity)
    have hbody := ratParseUnsigned_dec ((ratMantissa q e).natAbs / 10 ^ e)
      ((ratMantissa q e).natAbs % 10 ^ e) e hepos hflt
    have hval := div_mod_decomp (ratMantissa q e).natAbs e
    have hqm : ((ratMantissa q e : Int) : ℚ) / (10 : ℚ) ^ e = q := ratMantissa_div q e hdvd
    have hfilbody : (natRender ((ratMantissa q e).natAbs / 10 ^ e) ++
        '.' :: natPad e ((ratMantissa q e).natAbs % 10 ^ e)).filter (fun c => !(c == ',')) =
        natRender ((ratMantissa q e).natAbs / 10 ^ e) ++
          '.' :: natPad e ((ratMantissa q e).natAbs % 10 ^ e) := by
      rw [List.filter_append, filter_comma_of_digits _ (natRender_digits _),
        List.filter_cons_of_pos (by decide), filter_comma_of_digits _ (natPad_digits _ _)]
    by_cases hm : ratMantissa q e < 0
    · rw [if_pos hm, List.singleton_append]
      unfold ratParse
      have hfil : ('-' :: (natRender ((ratMantissa q e).natAbs / 10 ^ e) ++
          '.' :: natPad e ((ratMantissa q e).natAbs % 10 ^ e))).filter
          (fun c => !(c == ',')) =
          '-' :: (natRender ((ratMantissa q e).natAbs / 10 ^ e) ++
            '.' :: natPad e ((ratMantissa q e).natAbs % 10 ^ e)) := by
        rw [List.filter_cons_of_pos (by decide), hfilbody]
      rw [List.cons_append, hfil]
      rw [if_pos (show ('-' :: (natRender ((ratMantissa q e).natAbs / 10 ^ e) ++
        '.' :: natPad e ((ratMantissa q e).natAbs % 10 ^ e))).head? = some '-' from rfl)]
      rw [List.tail_cons, hbody, Option.map_some']
      refine congrArg some ?_
      rw [hval]
      rw [natAbs_cast_of_neg hm, neg_div, neg_neg, hqm]
    · rw [if_neg hm, List.nil_append]
      unfold ratParse
      rw [hfilbody]
      rw [if_neg (head_append_not_dash _ _), hbody]
      refine congrArg some ?_
      rw [hval]
      rw [natAbs_cast_of_nonneg hm, hqm]

/-- Rendering of a PROFIT_MARGIN cell: pandas writes inf, -inf, and the
empty cell for NaN.  The column is recomputed on reload, so no parser is
needed for it. -/
def extRender : ExtQ → List Char
  | ExtQ.fin q => ratRender q
  | ExtQ.posInf => ['i', 'n', 'f']
  | ExtQ.negInf => '-' :: ['i', 'n', 'f']
  | ExtQ.nan => []

/-- Header of the exported file: source schema order followed by the
three derived columns, as in the in-memory frame. -/
def headerRow : List (List Char) :=
  ["ORDER_NUMBER".data, "ORDER_DATE".data, "QUANTITY_ORDERED".data,
   "PRICE_EACH".data, "MSRP".data, "SALES".data, "PRODUCTLINE".data,
   "PRODUCTCODE".data, "COUNTRY".data, "DEALSIZE".data, "STATUS".data,
   "CUSTOMER_NAME".data, "YEAR".data, "YEAR_MONTH".data, "PROFIT".data,
   "PROFIT_MARGIN".data]

/-- Cells of one exported record, in header order. -/
def rowCells (r : Row) : List (List Char) :=
  [intRender r.ORDER_NUMBER, dateRender r.ORDER_DATE, intRender r.QUANTITY_ORDERED,
   ratRender r.PRICE_EACH, ratRender r.MSRP, ratRender r.SALES,
   r.PRODUCTLINE.data, r.PRODUCTCODE.data, r.COUNTRY.data, r.DEALSIZE.data,
   r.STATUS.data, r.CUSTOMER_NAME.data, intRender r.YEAR, r.YEAR_MONTH.data,
   ratRender r.PROFIT, extRender r.PROFIT_MARGIN]

/-- to_csv(index=False): header row followed by one cell row per record.
The function is deterministic in the in-memory table, so the exported
text is byte-for-byte reproducible from it. -/
def to_csv (view : List Row) : List (List Char) × List (List (List Char)) :=
  (headerRow, view.map rowCells)

/-- Parse the raw columns of one record; the three trailing derived
cells are read but ignored, since load_data recomputes those columns. -/
def parseRawRow : List (List Char) → Option RawRow
  | [c0, c1, c2, c3, c4, c5, c6, c7, c8, c9, ca, cb, cc, _, _, _] =>
    match intParse c0, dateParse c1, intParse c2, ratParse c3,
        ratParse c4, ratParse c5, intParse cc with
    | some onv, some odv, some qov, some pev, some msv, some sav, some yrv =>
      some { ORDER_NUMBER := onv, ORDER_DATE := odv, QUANTITY_ORDERED := qov,
             PRICE_EACH := pev, MSRP := msv, SALES := sav,
             PRODUCTLINE := String.mk c6, PRODUCTCODE := String.mk c7,
             COUNTRY := String.mk c8, DEALSIZE := String.mk c9,
             STATUS := String.mk ca, CUSTOMER_NAME := String.mk cb, YEAR := yrv }
    | _, _, _, _, _, _, _ => none
  | _ => none

/-- Parse every record row; any malformed row fails the load. -/
def parseRows : List (List (List Char)) → Option (List RawRow)
  | [] => some []
  | cells :: rest =>
    match parseRawRow cells, parseRows rest with
    | some r, some rs => some (r :: rs)
    | _, _ => none

/-- read_csv followed by the derive step of load_data: checks the
header, parses the records, recomputes the derived columns. -/
def read_csv (t : List (List Char) × List (List (List Char))) : Option (List Row) :=
  if t.1 = headerRow then (parseRows t.2).map load_data else none

/-- Default Filter Selection of the sidebar: every distinct value
present in the data for each dimension, years sorted ascending. -/
def fullSelection (df : List Row) : Selection :=
  { years := List.insertionSort (fun a b => a ≤ b) ((df.map (fun r => r.YEAR)).dedup),
    statuses := (df.map (fun r => r.STATUS)).dedup,
    product_lines := (df.map (fun r => r.PRODUCTLINE)).dedup,
    deal_sizes := (df.map (fun r => r.DEALSIZE)).dedup }

theorem filtered_df_fullSelection (df : List Row) :
    filtered_df df (fullSelection df) = df :=
  List.filter_eq_self.mpr (fun r hr => by
    simp only [rowMatches, fullSelection, Bool.and_eq_true, decide_eq_true_iff]
    refine ⟨⟨⟨?_, ?_⟩, ?_⟩, ?_⟩
    · exact (List.mem_insertionSort _).mpr
        (List.mem_dedup.mpr (List.mem_map.mpr ⟨r, hr, rfl⟩))
    · exact List.mem_dedup.mpr (List.mem_map.mpr ⟨r, hr, rfl⟩)
    · exact List.mem_dedup.mpr (List.mem_map.mpr ⟨r, hr, rfl⟩)
    · exact List.mem_dedup.mpr (List.mem_map.mpr ⟨r, hr, rfl⟩))

/-- Decimal representability at float scale: what every value read from
a float CSV column satisfies. -/
def decimalRat (q : ℚ) : Prop := (10 ^ 18) % q.den = 0

theorem parseRawRow_rowCells (r : Row) (h1 : decimalRat r.PRICE_EACH)
    (h2 : decimalRat r.MSRP) (h3 : decimalRat r.SALES) :
    parseRawRow (rowCells r) = some r.toRawRow := by
  simp only [parseRawRow, rowCells]
  rw [intParse_render, dateParse_render, intParse_render, ratParse_render _ h1,
    ratParse_render _ h2, ratParse_render _ h3, intParse_render]

theorem parseRows_map (view : List Row)
    (h : ∀ r ∈ view, decimalRat r.PRICE_EACH ∧ decimalRat r.MSRP ∧ decimalRat r.SALES) :
    parseRows (view.map rowCells) = some (view.map (fun r => r.toRawRow)) := by
  induction view with
  | nil => rfl
  | cons a t ih =>
    obtain ⟨ha1, ha2, ha3⟩ := h a (List.mem_cons_self a t)
    have ih' := ih (fun r hr => h r (List.mem_cons_of_mem a hr))
    simp only [List.map_cons, parseRows]
    rw [parseRawRow_rowCells a ha1 ha2 ha3, ih']

theorem load_data_toRawRow (raws : List RawRow) :
    load_data ((load_data raws).map (fun r => r.toRawRow)) = load_data raws := by
  unfold load_data
  rw [List.map_map, List.map_map]
  exact List.map_congr_left (fun a _ => rfl)

/-- C4: with no filters applied (each selection set equal to all
distinct values present), the Filtered View is the whole loaded frame;
exporting it with to_csv and loading the exported text back yields
exactly the original table, derived columns included.  The export is a
pure function of the in-memory table (hence byte-for-byte reproducible)
with the source schema's column order extended by the derived columns.
The hypothesis states that each monetary column holds a value with a
decimal expansion of scale at most 18, as every float64 value has. -/
theorem c4_export_reload (raws : List RawRow)
    (hdec : ∀ a ∈ raws,
      decimalRat a.PRICE_EACH ∧ decimalRat a.MSRP ∧ decimalRat a.SALES) :
    filtered_df (load_data raws) (fullSelection (load_data raws)) = load_data raws ∧
    read_csv (to_csv (filtered_df (load_data raws) (fullSelection (load_data raws)))) =
      some (load_data raws) := by
  have hfull := filtered_df_fullSelection (load_data raws)
  refine ⟨hfull, ?_⟩
  rw [hfull]
  unfold read_csv to_csv
  rw [if_pos rfl]
  have hrows : ∀ r ∈ load_data raws,
      decimalRat r.PRICE_EACH ∧ decimalRat r.MSRP ∧ decimalRat r.SALES := by
    intro r hr
    rcases List.mem_map.mp hr with ⟨a, ha, rfl⟩
    exact hdec a ha
  rw [parseRows_map _ hrows, Option.map_some', load_data_toRawRow]

/-- Witness for C4 on the one-row table with integral monetary values. -/
theorem c4_export_reload_witness :
    filtered_df (load_data [rawA]) (fullSelection (load_data [rawA])) = load_data [rawA] ∧
    read_csv (to_csv (filtered_df (load_data [rawA]) (fullSelection (load_data [rawA])))) =
      some (load_data [rawA]) :=
  c4_export_reload [rawA] (by
    intro a ha
    simp only [List.mem_singleton] at ha
    subst ha
    refine ⟨?_, ?_, ?_⟩ <;> · unfold decimalRat; decide)
